import Mathlib

/-!
Verification of the unit-animation asset generator (`assets/unit_animation.py`).

The script reads `Units.json` (stripping `//` line comments), then either

* with `--rust` ("code mode"): prints a Rust `match` mapping each unit to a
  running frame offset and its four frame arrays, followed by a
  `TOTAL_FRAMES` constant; or
* without the flag ("paths mode"): lists the faction sub-directories of a
  textures root (environment override or default), sorts them, and prints one
  texture file path per frame position for every present animation of every
  unit.

The development below is a shallow embedding of that script: JSON unit
entries become `UnitData`, the filesystem becomes an explicit `Fs` record,
printing becomes lists of output lines, and uncaught Python exceptions become
`Except.error` values.
-/

/-- One animation entry of a unit: a texture name plus the ordered list of
frame indices (`{"Texture": ..., "Frames": [...]}` in `Units.json`). -/
structure Animation where
  texture : String
  frames : List Int
deriving Repr, DecidableEq

/-- A unit's entry in `Units.json`, restricted to the four animation keys the
script reads.  A `none` field models an absent key. -/
structure UnitData where
  idleAnimation : Option Animation
  moveUpAnimation : Option Animation
  moveDownAnimation : Option Animation
  moveSideAnimation : Option Animation
deriving Repr, DecidableEq

/-- The parsed configuration: unit name ↦ unit data, in JSON document order
(Python dicts preserve insertion order). -/
abbrev Config := List (String × UnitData)

/-- Dictionary lookup `unit_data[anim_type]` for the four animation keys used
by the script. -/
def UnitData.lookup (u : UnitData) (key : String) : Option Animation :=
  if key = "IdleAnimation" then u.idleAnimation
  else if key = "MoveUpAnimation" then u.moveUpAnimation
  else if key = "MoveDownAnimation" then u.moveDownAnimation
  else if key = "MoveSideAnimation" then u.moveSideAnimation
  else none

/-- The list `animations` in the script (iteration order of the four keys). -/
def animationKeys : List String :=
  ["IdleAnimation", "MoveUpAnimation", "MoveDownAnimation", "MoveSideAnimation"]

/-- `anim_type in unit_data` for all four keys at once: the check code mode
implicitly relies on. -/
def hasAllKeys (u : UnitData) : Bool :=
  u.idleAnimation.isSome && u.moveUpAnimation.isSome &&
    u.moveDownAnimation.isSome && u.moveSideAnimation.isSome

/-- Length of an animation's frame list, 0 when the key is absent. -/
def animLen : Option Animation → Nat
  | some a => a.frames.length
  | none => 0

/-- Frames contributed by one unit across the four animation kinds that are
present on it. -/
def unitFrameCount (u : UnitData) : Nat :=
  animLen u.idleAnimation + animLen u.moveUpAnimation +
    animLen u.moveDownAnimation + animLen u.moveSideAnimation

/-- Total frame count of a configuration: the sum over all units of the frame
counts of their present animation kinds. -/
def totalFrameCount (cfg : Config) : Nat :=
  (cfg.map (fun p => unitFrameCount p.2)).sum

/-! ### Code mode (`--rust`) -/

/-- `texture.replace('-', '')` at the character level. -/
def removeDashes : List Char → List Char
  | [] => []
  | c :: rest => if c = '-' then removeDashes rest else c :: removeDashes rest

/-- The Rust enum identifier derived from a texture name: all dashes
removed. -/
def rustEnumName (s : String) : String :=
  String.mk (removeDashes s.data)

/-- `', '.join(map(str, frames))`. -/
def intListLit (l : List Int) : String :=
  String.intercalate ", " (l.map toString)

/-- The six lines printed for one unit in code mode, given the running frame
offset at that unit. -/
def unitBlock (offset : Nat) (idle up down side : Animation) : List String :=
  [ "    Unit::" ++ rustEnumName idle.texture ++ " => (" ++ toString offset ++
      ", UnitAnimationData::new(",
    "        &[" ++ intListLit idle.frames ++ "],",
    "        &[" ++ intListLit up.frames ++ "],",
    "        &[" ++ intListLit down.frames ++ "],",
    "        &[" ++ intListLit side.frames ++ "],",
    "    )),"]

/-- The per-unit loop of code mode: threads the running `frames` counter and
fails with `KeyError` when a unit lacks one of the four animation keys.
Returns the printed unit lines together with the final counter value. -/
def rustUnits : Config → Nat → Except String (List String × Nat)
  | [], offset => .ok ([], offset)
  | (_, u) :: rest, offset =>
    match u.idleAnimation, u.moveUpAnimation, u.moveDownAnimation,
        u.moveSideAnimation with
    | some idle, some up, some down, some side =>
      match rustUnits rest (offset + idle.frames.length + up.frames.length +
          down.frames.length + side.frames.length) with
      | .ok (lines, total) =>
        .ok (unitBlock offset idle up down side ++ lines, total)
      | .error e => .error e
    | _, _, _, _ => .error "KeyError"

/-- Everything code mode prints, or the uncaught exception that aborts it. -/
def rustOutput (cfg : Config) : Except String (List String) :=
  match rustUnits cfg 0 with
  | .error e => .error e
  | .ok (lines, total) =>
    .ok (["// This file is generated by unit_animation.py --rust",
          "fn get_animation_data(unit: Unit) -> (u16, UnitAnimationData) \x7b",
          "match unit \x7b"] ++ lines ++
         ["\x7d", "\x7d",
          "impl UnitAnimationData \x7b",
          "pub const TOTAL_FRAMES: usize = " ++ toString total ++ ";",
          "\x7d"])

/-! ### Lexicographic string comparison (a kernel-computable model of
Python's string `<`, which compares code points left to right) -/

/-- Lexicographic comparison of character lists by code point. -/
def charsLt : List Char → List Char → Bool
  | [], [] => false
  | [], _ :: _ => true
  | _ :: _, [] => false
  | a :: as, b :: bs =>
    if a < b then true else if b < a then false else charsLt as bs

/-- Computable strict lexicographic order on strings. -/
def strLt (a b : String) : Bool := charsLt a.data b.data

/-- Computable lexicographic `≤` on strings (total order: `¬ b < a`). -/
def strLe (a b : String) : Bool := !(strLt b a)

/-- Python's `sorted` on the faction directory list: a stable sort by the
lexicographic order. -/
def sortedFactions (factionDirs : List String) : List String :=
  List.insertionSort (fun a b => strLe a b = true) factionDirs

/-! ### Paths mode -/

/-- `os.path.join` for the relative-path arguments the script uses. -/
def pathJoin (a b : String) : String := a ++ "/" ++ b

/-- The default textures root, used when the environment variable
`TEXTURES_DIR` is unset. -/
def defaultTexturesDir : String :=
  "../AWBW-Replay-Player/AWBWApp.Resources/Textures"

/-- `base_path`: the optional environment override (else the default root),
joined with `Units`. -/
def texturesBase (env : Option String) : String :=
  pathJoin (env.getD defaultTexturesDir) "Units"

/-- The filesystem as the script sees it: a directory listing (absent
directories give `none`, modelling the `FileNotFoundError` from
`os.listdir`) and an `os.path.isdir` test. -/
structure Fs where
  listDir : String → Option (List String)
  isDir : String → Bool

/-- `[d for d in os.listdir(base_path) if os.path.isdir(os.path.join(base_path, d))]`,
failing when the base directory does not exist. -/
def listFactions (fs : Fs) (base : String) : Except String (List String) :=
  match fs.listDir base with
  | none => .error "FileSystemError"
  | some entries => .ok (entries.filter (fun d => fs.isDir (pathJoin base d)))

/-- The lines printed for one animation entry: one per frame position `i`
of `range(len(frames))`, following
`f"{base_path}/{faction}/{texture_name}-{i}.png"`. -/
def animLines (base faction : String) (anim : Animation) : List String :=
  (List.range anim.frames.length).map (fun i =>
    base ++ "/" ++ faction ++ "/" ++ anim.texture ++ "-" ++ toString i ++ ".png")

/-- The `if anim_type in unit_data` guard: the lines for one animation key,
or nothing when the key is absent. -/
def optAnimLines (base faction : String) : Option Animation → List String
  | some anim => animLines base faction anim
  | none => []

/-- The lines printed for one unit under one faction: the four animation
keys in order, skipping absent ones. -/
def unitLines (base faction : String) (u : UnitData) : List String :=
  animationKeys.flatMap (fun key => optAnimLines base faction (u.lookup key))

/-- The lines printed for one faction: all units in configuration order. -/
def factionLines (base : String) (cfg : Config) (faction : String) : List String :=
  cfg.flatMap (fun p => unitLines base faction p.2)

/-- Everything paths mode prints once the faction directories are known:
factions in sorted order, then units, then animations, then frames. -/
def pathsOutput (base : String) (factionDirs : List String) (cfg : Config) :
    List String :=
  (sortedFactions factionDirs).flatMap (factionLines base cfg)

/-- Paths mode end to end: resolve the root, list the faction directories,
print the paths; an absent root is the uncaught filesystem error. -/
def pathsMode (fs : Fs) (env : Option String) (cfg : Config) :
    Except String (List String) :=
  match listFactions fs (texturesBase env) with
  | .error e => .error e
  | .ok ds => .ok (pathsOutput (texturesBase env) ds cfg)

/-! ### Comment stripping and parsing -/

/-- `re.sub(r'//.*', '', content)` at the character level.  The flag records
whether the scanner is inside a comment (i.e. after a `//` with no newline
yet); `.` does not match a newline, so the newline itself is kept. -/
def stripChars : Bool → List Char → List Char
  | _, [] => []
  | true, c :: rest =>
    if c = '\n' then c :: stripChars false rest else stripChars true rest
  | false, [c] => [c]
  | false, c :: d :: rest =>
    if c = '/' ∧ d = '/' then stripChars true rest
    else c :: stripChars false (d :: rest)

/-- Comment removal on the raw file contents. -/
def stripComments (s : String) : String :=
  String.mk (stripChars false s.data)

/-- Reading the configuration document: strip comments, then hand the result
to the JSON parser (kept abstract as any function `String → Option J`); a
parser failure is the uncaught `ParseError`. -/
def parseUnits {J : Type} (parse : String → Option J) (content : String) :
    Except String J :=
  match parse (stripComments content) with
  | some j => .ok j
  | none => .error "ParseError"

/-- A source document together with the `//` comments appended to (some of)
its lines: each pair is one line's real content and its optional comment
text. -/
def renderLine : List Char × Option (List Char) → List Char
  | (l, none) => l
  | (l, some c) => l ++ '/' :: '/' :: c

/-- Join rendered lines with newlines: the commented document as stored on
disk. -/
def renderCommented : List (List Char × Option (List Char)) → List Char
  | [] => []
  | [p] => renderLine p
  | p :: q :: rest => renderLine p ++ '\n' :: renderCommented (q :: rest)

/-- The same document with every comment dropped. -/
def renderClean : List (List Char × Option (List Char)) → List Char
  | [] => []
  | [p] => p.1
  | p :: q :: rest => p.1 ++ '\n' :: renderClean (q :: rest)

/-- Does a character list contain `//` as a substring? -/
def hasDoubleSlash : List Char → Bool
  | [] => false
  | [_] => false
  | a :: b :: rest => (a = '/' && b = '/') || hasDoubleSlash (b :: rest)

/-- A well-formed commented line: the content holds no newline and no `//`
(and, when a comment follows, does not end in `/`, which would fuse with the
comment marker); the comment holds no newline. -/
def lineOk : List Char × Option (List Char) → Bool
  | (l, none) => !l.contains '\n' && !hasDoubleSlash l
  | (l, some c) => !l.contains '\n' && !hasDoubleSlash (l ++ ['/']) &&
      !c.contains '\n'

/-! ### Auxiliary notions used to state the claims -/

/-- Deleting one of the four animation keys from a unit entry (used to state
what paths mode does when a key is missing). -/
def UnitData.remove (u : UnitData) (key : String) : UnitData :=
  if key = "IdleAnimation" then { u with idleAnimation := none }
  else if key = "MoveUpAnimation" then { u with moveUpAnimation := none }
  else if key = "MoveDownAnimation" then { u with moveDownAnimation := none }
  else if key = "MoveSideAnimation" then { u with moveSideAnimation := none }
  else u

/-- Two optional animation entries with the same presence, the same texture
and the same number of frames (the frame values themselves may differ). -/
def animShapeEq : Option Animation → Option Animation → Bool
  | none, none => true
  | some a, some b => a.texture == b.texture && a.frames.length == b.frames.length
  | _, _ => false

/-- Two unit entries that agree on key presence, textures and frame counts. -/
def unitShapeEq (u v : UnitData) : Bool :=
  animShapeEq u.idleAnimation v.idleAnimation &&
    animShapeEq u.moveUpAnimation v.moveUpAnimation &&
    animShapeEq u.moveDownAnimation v.moveDownAnimation &&
    animShapeEq u.moveSideAnimation v.moveSideAnimation

/-- Two configurations that agree on unit order, unit names, key presence,
textures and frame counts — everything except the frame index values. -/
def configShapeEq : Config → Config → Bool
  | [], [] => true
  | p :: c₁, q :: c₂ => p.1 == q.1 && unitShapeEq p.2 q.2 && configShapeEq c₁ c₂
  | _, _ => false

/-! ### Concrete sample data (the spec's Tank example and small variants) -/

/-- The Tank example from the specification: `Idle` frames `[0, 1]`,
`MoveUp` `[0]`, `MoveDown` `[0]`, `MoveSide` `[0, 1, 2]`, texture
`tank-a`. -/
def tankUnit : UnitData :=
  ⟨some ⟨"tank-a", [0, 1]⟩, some ⟨"tank-a", [0]⟩,
    some ⟨"tank-a", [0]⟩, some ⟨"tank-a", [0, 1, 2]⟩⟩

/-- A one-unit configuration holding the Tank example. -/
def tankConfig : Config := [("Tank", tankUnit)]

/-- The Tank unit with the same shape but different frame index values. -/
def tankUnitShifted : UnitData :=
  ⟨some ⟨"tank-a", [7, 9]⟩, some ⟨"tank-a", [3]⟩,
    some ⟨"tank-a", [4]⟩, some ⟨"tank-a", [5, 5, 5]⟩⟩

/-- The Tank unit without its `MoveSideAnimation` key. -/
def tankUnitNoSide : UnitData :=
  ⟨some ⟨"tank-a", [0, 1]⟩, some ⟨"tank-a", [0]⟩, some ⟨"tank-a", [0]⟩, none⟩

/-! ## Basic lemmas -/

@[simp] lemma UnitData.lookup_idle (u : UnitData) :
    u.lookup "IdleAnimation" = u.idleAnimation := rfl

@[simp] lemma UnitData.lookup_moveUp (u : UnitData) :
    u.lookup "MoveUpAnimation" = u.moveUpAnimation := rfl

@[simp] lemma UnitData.lookup_moveDown (u : UnitData) :
    u.lookup "MoveDownAnimation" = u.moveDownAnimation := rfl

@[simp] lemma UnitData.lookup_moveSide (u : UnitData) :
    u.lookup "MoveSideAnimation" = u.moveSideAnimation := rfl

lemma unitLines_expand (base faction : String) (u : UnitData) :
    unitLines base faction u =
      optAnimLines base faction u.idleAnimation ++
        (optAnimLines base faction u.moveUpAnimation ++
          (optAnimLines base faction u.moveDownAnimation ++
            (optAnimLines base faction u.moveSideAnimation ++ []))) := rfl

@[simp] lemma optAnimLines_length (base faction : String) (o : Option Animation) :
    (optAnimLines base faction o).length = animLen o := by
  cases o <;> simp [optAnimLines, animLines, animLen]

lemma unitLines_length (base faction : String) (u : UnitData) :
    (unitLines base faction u).length = unitFrameCount u := by
  rw [unitLines_expand]
  simp [unitFrameCount]
  omega

lemma factionLines_length (base : String) (cfg : Config) (faction : String) :
    (factionLines base cfg faction).length = totalFrameCount cfg := by
  induction cfg with
  | nil => rfl
  | cons p rest ih =>
    simp [factionLines, totalFrameCount, List.flatMap_cons, unitLines_length] at ih ⊢
    omega

lemma sortedFactions_length (fds : List String) :
    (sortedFactions fds).length = fds.length :=
  (List.perm_insertionSort _ fds).length_eq

/-! ## Code mode lemmas -/

lemma rustUnits_ok (cfg : Config) (n : Nat)
    (h : ∀ p ∈ cfg, hasAllKeys p.2 = true) :
    ∃ lines, rustUnits cfg n = .ok (lines, n + totalFrameCount cfg) := by
  induction cfg generalizing n with
  | nil => exact ⟨[], by simp [rustUnits, totalFrameCount]⟩
  | cons p rest ih =>
    obtain ⟨name, u⟩ := p
    have hu : hasAllKeys u = true := h _ (List.mem_cons_self _ _)
    simp only [hasAllKeys, Bool.and_eq_true, Option.isSome_iff_exists] at hu
    obtain ⟨⟨⟨⟨idle, hidle⟩, up, hup⟩, down, hdown⟩, side, hside⟩ := hu
    obtain ⟨lines, hl⟩ := ih (n + idle.frames.length + up.frames.length +
      down.frames.length + side.frames.length)
      (fun q hq => h q (List.mem_cons_of_mem _ hq))
    refine ⟨unitBlock n idle up down side ++ lines, ?_⟩
    simp only [rustUnits, hidle, hup, hdown, hside, hl]
    have : n + idle.frames.length + up.frames.length + down.frames.length +
        side.frames.length + totalFrameCount rest =
        n + totalFrameCount ((name, u) :: rest) := by
      simp [totalFrameCount, unitFrameCount, hidle, hup, hdown, hside, animLen]
      omega
    rw [this]

lemma rustUnits_cons (name : String) (u : UnitData) (rest : Config) (n : Nat) :
    rustUnits ((name, u) :: rest) n =
      match u.idleAnimation, u.moveUpAnimation, u.moveDownAnimation,
          u.moveSideAnimation with
      | some idle, some up, some down, some side =>
        (match rustUnits rest (n + idle.frames.length + up.frames.length +
            down.frames.length + side.frames.length) with
         | .ok (lines, total) =>
           .ok (unitBlock n idle up down side ++ lines, total)
         | .error e => .error e)
      | _, _, _, _ => .error "KeyError" := rfl

lemma rustUnits_error (cfg : Config) (n : Nat)
    (h : ∃ p ∈ cfg, hasAllKeys p.2 = false) :
    rustUnits cfg n = .error "KeyError" := by
  induction cfg generalizing n with
  | nil => simp at h
  | cons p rest ih =>
    obtain ⟨name, u⟩ := p
    rcases h with ⟨q, hq, hbad⟩
    rcases List.mem_cons.mp hq with rfl | hq'
    · rw [rustUnits_cons]
      cases hidle : u.idleAnimation <;> cases hup : u.moveUpAnimation <;>
        cases hdown : u.moveDownAnimation <;> cases hside : u.moveSideAnimation <;>
        first
          | rfl
          | (exfalso
             rw [hasAllKeys, hidle, hup, hdown, hside] at hbad
             simp at hbad)
    · rw [rustUnits_cons]
      cases hidle : u.idleAnimation <;> cases hup : u.moveUpAnimation <;>
        cases hdown : u.moveDownAnimation <;> cases hside : u.moveSideAnimation <;>
        first
          | rfl
          | (simp only [ih _ ⟨q, hq', hbad⟩])

/-! ## Claim theorems -/

/-- C1: in code mode, the `TOTAL_FRAMES` constant emitted at the end equals
the sum of the lengths of all four frame sequences across every unit, for
every configuration in which each unit has all four animation keys. -/
theorem rust_total_frames (cfg : Config)
    (h : ∀ p ∈ cfg, hasAllKeys p.2 = true) :
    ∃ body, rustOutput cfg = .ok body ∧
      ("pub const TOTAL_FRAMES: usize = " ++ toString (totalFrameCount cfg) ++ ";")
        ∈ body := by
  obtain ⟨lines, hl⟩ := rustUnits_ok cfg 0 h
  rw [Nat.zero_add] at hl
  refine ⟨["// This file is generated by unit_animation.py --rust",
    "fn get_animation_data(unit: Unit) -> (u16, UnitAnimationData) \x7b",
    "match unit \x7b"] ++ lines ++
    ["\x7d", "\x7d", "impl UnitAnimationData \x7b",
     "pub const TOTAL_FRAMES: usize = " ++ toString (totalFrameCount cfg) ++ ";",
     "\x7d"], ?_, ?_⟩
  · unfold rustOutput
    rw [hl]
  · simp

/-- Witness for C1: the spec's Tank example has all four keys and its
emitted total is the sum of its frame counts (2 + 1 + 1 + 3 = 7). -/
theorem rust_total_frames_witness :
    (∀ p ∈ tankConfig, hasAllKeys p.2 = true) ∧
      ∃ body, rustOutput tankConfig = .ok body ∧
        ("pub const TOTAL_FRAMES: usize = " ++
          toString (totalFrameCount tankConfig) ++ ";") ∈ body :=
  ⟨by decide, rust_total_frames tankConfig (by decide)⟩

/-- C6: code mode fails with a `KeyError` exactly when some unit lacks at
least one of the four animation keys. -/
theorem rust_keyerror_iff (cfg : Config) :
    rustOutput cfg = .error "KeyError" ↔ ∃ p ∈ cfg, hasAllKeys p.2 = false := by
  constructor
  · intro herr
    by_contra hno
    push_neg at hno
    have hall : ∀ p ∈ cfg, hasAllKeys p.2 = true := by
      intro p hp
      cases hcase : hasAllKeys p.2
      · exact absurd hcase (hno p hp)
      · rfl
    obtain ⟨lines, hl⟩ := rustUnits_ok cfg 0 hall
    unfold rustOutput at herr
    rw [hl] at herr
    simp at herr
  · intro hbad
    unfold rustOutput
    rw [rustUnits_error cfg 0 hbad]

/-- C3: in paths mode the number of lines emitted is the number of faction
directories times the total frame count over all units and their present
animation kinds. -/
theorem paths_line_count (base : String) (fds : List String) (cfg : Config) :
    (pathsOutput base fds cfg).length = fds.length * totalFrameCount cfg := by
  unfold pathsOutput
  rw [List.length_flatMap]
  have h1 : List.map (List.length ∘ factionLines base cfg) (sortedFactions fds) =
      List.map (fun _ => totalFrameCount cfg) (sortedFactions fds) :=
    List.map_congr_left (fun f _ => factionLines_length base cfg f)
  rw [h1, List.map_const', List.sum_replicate, smul_eq_mul, sortedFactions_length]

/-- C2 (counterexample): with frame sequence `[5]` the single emitted line
carries suffix `-0.png` (the position), not `-5.png` (the frame value), so
the suffix does not match the frame index stored in the sequence. -/
theorem paths_frame_suffix_cex :
    pathsOutput "B" ["F"] [("U", ⟨some ⟨"t", [5]⟩, none, none, none⟩)] =
      ["B/F/t-0.png"] ∧
    "B/F/t-5.png" ∉ pathsOutput "B" ["F"] [("U", ⟨some ⟨"t", [5]⟩, none, none, none⟩)] := by
  decide

/-- C2 (amended): in paths mode, per faction (sorted), per unit, per present
animation kind, exactly one line is emitted per frame position
`i ∈ range(len(frames))`, following `<root>/<faction>/<texture>-<i>.<ext>`
with the 0-based position as suffix (which matches the stored frame value
only when the sequence is `[0, 1, ..., n-1]`), and the number of lines per
animation equals its frame-sequence length. -/
theorem paths_frame_suffix_amended (base : String) (fds : List String) (cfg : Config) :
    pathsOutput base fds cfg =
      (sortedFactions fds).flatMap (fun faction =>
        cfg.flatMap (fun p =>
          animationKeys.flatMap (fun key =>
            match p.2.lookup key with
            | some anim =>
              (List.range anim.frames.length).map (fun i =>
                base ++ "/" ++ faction ++ "/" ++ anim.texture ++ "-" ++
                  toString i ++ ".png")
            | none => []))) ∧
    ∀ faction anim, (animLines base faction anim).length = anim.frames.length := by
  constructor
  · rfl
  · intro faction anim
    simp [animLines]

/-- C4: in paths mode the root is the environment override when set (else the
fixed default), joined with `Units`; the run fails with a `FileSystemError`
exactly when that directory is absent, and otherwise the enumerated factions
are exactly the listed entries that are directories. -/
theorem paths_root_factions (fs : Fs) (env : Option String) (cfg : Config) :
    texturesBase env = (env.getD defaultTexturesDir) ++ "/Units" ∧
    pathsMode fs env cfg =
      (match fs.listDir (texturesBase env) with
       | none => .error "FileSystemError"
       | some entries =>
         .ok (pathsOutput (texturesBase env)
           (List.filter (fun d => fs.isDir (pathJoin (texturesBase env) d)) entries) cfg)) ∧
    (∀ (entries : List String) (d : String),
      d ∈ List.filter (fun e => fs.isDir (pathJoin (texturesBase env) e)) entries ↔
        d ∈ entries ∧ fs.isDir (pathJoin (texturesBase env) d) = true) := by
  refine ⟨?_, ?_, ?_⟩
  · show (env.getD defaultTexturesDir) ++ "/" ++ "Units" = _
    rw [String.append_assoc]
    exact congrArg (fun t => env.getD defaultTexturesDir ++ t)
      (by decide : ("/" ++ "Units" : String) = "/Units")
  · unfold pathsMode listFactions
    cases fs.listDir (texturesBase env) <;> rfl
  · intro entries d
    exact List.mem_filter

lemma charsLt_iff (as bs : List Char) :
    charsLt as bs = true ↔ List.Lex (· < ·) as bs := by
  induction as generalizing bs with
  | nil =>
    cases bs with
    | nil => exact iff_of_false (by simp [charsLt]) (List.Lex.not_nil_right _ _)
    | cons b bs => exact iff_of_true rfl List.Lex.nil
  | cons a as ih =>
    cases bs with
    | nil => exact iff_of_false (by simp [charsLt]) (List.Lex.not_nil_right _ _)
    | cons b bs =>
      show (if a < b then true else if b < a then false else charsLt as bs) = true ↔ _
      by_cases hab : a < b
      · rw [if_pos hab]
        exact iff_of_true rfl (List.Lex.rel hab)
      · by_cases hba : b < a
        · rw [if_neg hab, if_pos hba]
          refine iff_of_false (by simp) ?_
          intro hlex
          cases hlex with
          | rel h' => exact hab h'
          | cons h' => exact lt_irrefl a hba
        · have heq : a = b := le_antisymm (not_lt.mp hba) (not_lt.mp hab)
          subst heq
          rw [if_neg hab, if_neg hba, ih bs]
          exact List.Lex.cons_iff.symm

lemma strLt_iff (a b : String) : strLt a b = true ↔ a < b :=
  (charsLt_iff a.data b.data).trans String.lt_iff_toList_lt.symm

lemma strLe_iff (a b : String) : strLe a b = true ↔ a ≤ b := by
  rw [← not_lt, ← strLt_iff b a]
  unfold strLe
  simp

lemma sortedFactions_sorted_le (fds : List String) :
    List.Pairwise (· ≤ ·) (sortedFactions fds) := by
  have htot : IsTotal String (fun a b => strLe a b = true) :=
    ⟨fun a b => by
      rcases le_total a b with h | h
      · exact Or.inl ((strLe_iff a b).mpr h)
      · exact Or.inr ((strLe_iff b a).mpr h)⟩
  have htrans : IsTrans String (fun a b => strLe a b = true) :=
    ⟨fun a b c hab hbc =>
      (strLe_iff a c).mpr (le_trans ((strLe_iff a b).mp hab) ((strLe_iff b c).mp hbc))⟩
  exact (@List.sorted_insertionSort String _ _ htot htrans fds).imp
    (fun hab => (strLe_iff _ _).mp hab)

/-- C5: in paths mode the factions appear in strictly increasing
lexicographic order — the sorted faction list is strictly `<`-sorted, is a
permutation of the directory listing, and the output is its concatenation of
per-faction blocks (so each faction's block is contiguous). -/
theorem paths_factions_sorted (base : String) (fds : List String) (cfg : Config)
    (h : fds.Nodup) :
    List.Sorted (· < ·) (sortedFactions fds) ∧
    (sortedFactions fds).Perm fds ∧
    pathsOutput base fds cfg = (sortedFactions fds).flatMap (factionLines base cfg) := by
  refine ⟨?_, List.perm_insertionSort _ fds, rfl⟩
  have hle := sortedFactions_sorted_le fds
  have hnd : (sortedFactions fds).Nodup :=
    ((List.perm_insertionSort (fun a b => strLe a b = true) fds).nodup_iff).mpr h
  exact (List.Pairwise.and hle hnd).imp (fun hp => lt_of_le_of_ne hp.1 hp.2)

/-- Witness for C5 at a concrete three-faction listing. -/
theorem paths_factions_sorted_witness :
    (["BlueMoon", "OrangeStar", "GreenEarth"] : List String).Nodup ∧
      (List.Sorted (· < ·) (sortedFactions ["BlueMoon", "OrangeStar", "GreenEarth"]) ∧
       (sortedFactions ["BlueMoon", "OrangeStar", "GreenEarth"]).Perm
         ["BlueMoon", "OrangeStar", "GreenEarth"] ∧
       pathsOutput "B" ["BlueMoon", "OrangeStar", "GreenEarth"] tankConfig =
         (sortedFactions ["BlueMoon", "OrangeStar", "GreenEarth"]).flatMap
           (factionLines "B" tankConfig)) :=
  ⟨by decide, paths_factions_sorted "B" _ tankConfig (by decide)⟩

/-- C7: in paths mode, removing one animation key from one unit drops
exactly that unit's lines for that animation in each faction; all other
lines (per faction, other units and the unit's other animation kinds) are
unchanged, with no error raised (paths-mode output is total). -/
theorem paths_remove_key (base : String) (fds : List String) (pre post : Config)
    (name : String) (u : UnitData) (key : String) (anim : Animation)
    (hkey : key ∈ animationKeys) (hk : u.lookup key = some anim) :
    ∃ A C : String → List String,
      pathsOutput base fds (pre ++ (name, u) :: post) =
        (sortedFactions fds).flatMap
          (fun f => A f ++ (animLines base f anim ++ C f)) ∧
      pathsOutput base fds (pre ++ (name, UnitData.remove u key) :: post) =
        (sortedFactions fds).flatMap (fun f => A f ++ C f) := by
  simp only [animationKeys, List.mem_cons, List.not_mem_nil, or_false] at hkey
  rcases hkey with rfl | rfl | rfl | rfl
  · rw [UnitData.lookup_idle] at hk
    refine ⟨fun f => factionLines base pre f,
      fun f => optAnimLines base f u.moveUpAnimation ++
        (optAnimLines base f u.moveDownAnimation ++
          (optAnimLines base f u.moveSideAnimation ++ factionLines base post f)),
      congrArg _ (funext fun f => ?_), congrArg _ (funext fun f => ?_)⟩ <;>
      simp [factionLines, unitLines_expand, optAnimLines, UnitData.remove, hk,
        List.append_assoc]
  · rw [UnitData.lookup_moveUp] at hk
    refine ⟨fun f => factionLines base pre f ++ optAnimLines base f u.idleAnimation,
      fun f => optAnimLines base f u.moveDownAnimation ++
        (optAnimLines base f u.moveSideAnimation ++ factionLines base post f),
      congrArg _ (funext fun f => ?_), congrArg _ (funext fun f => ?_)⟩ <;>
      simp [factionLines, unitLines_expand, optAnimLines, UnitData.remove, hk,
        List.append_assoc]
  · rw [UnitData.lookup_moveDown] at hk
    refine ⟨fun f => factionLines base pre f ++
        (optAnimLines base f u.idleAnimation ++ optAnimLines base f u.moveUpAnimation),
      fun f => optAnimLines base f u.moveSideAnimation ++ factionLines base post f,
      congrArg _ (funext fun f => ?_), congrArg _ (funext fun f => ?_)⟩ <;>
      simp [factionLines, unitLines_expand, optAnimLines, UnitData.remove, hk,
        List.append_assoc]
  · rw [UnitData.lookup_moveSide] at hk
    refine ⟨fun f => factionLines base pre f ++
        (optAnimLines base f u.idleAnimation ++
          (optAnimLines base f u.moveUpAnimation ++
            optAnimLines base f u.moveDownAnimation)),
      fun f => factionLines base post f,
      congrArg _ (funext fun f => ?_), congrArg _ (funext fun f => ?_)⟩ <;>
      simp [factionLines, unitLines_expand, optAnimLines, UnitData.remove, hk,
        List.append_assoc]

/-- Witness for C7: removing the Tank's `MoveSideAnimation` key. -/
theorem paths_remove_key_witness :
    ("MoveSideAnimation" ∈ animationKeys ∧
      tankUnit.lookup "MoveSideAnimation" = some ⟨"tank-a", [0, 1, 2]⟩) ∧
    (∃ A C : String → List String,
      pathsOutput "B" ["F"] ([] ++ ("Tank", tankUnit) :: []) =
        (sortedFactions ["F"]).flatMap
          (fun f => A f ++ (animLines "B" f ⟨"tank-a", [0, 1, 2]⟩ ++ C f)) ∧
      pathsOutput "B" ["F"]
          ([] ++ ("Tank", UnitData.remove tankUnit "MoveSideAnimation") :: []) =
        (sortedFactions ["F"]).flatMap (fun f => A f ++ C f)) :=
  ⟨⟨by decide, by decide⟩,
    paths_remove_key "B" ["F"] [] [] "Tank" tankUnit "MoveSideAnimation"
      ⟨"tank-a", [0, 1, 2]⟩ (by decide) (by decide)⟩

lemma optAnimLines_shape (base f : String) (o₁ o₂ : Option Animation)
    (h : animShapeEq o₁ o₂ = true) :
    optAnimLines base f o₁ = optAnimLines base f o₂ := by
  cases o₁ with
  | none => cases o₂ with
    | none => rfl
    | some b => simp [animShapeEq] at h
  | some a => cases o₂ with
    | none => simp [animShapeEq] at h
    | some b =>
      simp only [animShapeEq, Bool.and_eq_true, beq_iff_eq] at h
      simp [optAnimLines, animLines, h.1, h.2]

lemma unitLines_shape (base f : String) (u v : UnitData)
    (h : unitShapeEq u v = true) :
    unitLines base f u = unitLines base f v := by
  simp only [unitShapeEq, Bool.and_eq_true] at h
  rw [unitLines_expand, unitLines_expand,
    optAnimLines_shape base f _ _ h.1.1.1, optAnimLines_shape base f _ _ h.1.1.2,
    optAnimLines_shape base f _ _ h.1.2, optAnimLines_shape base f _ _ h.2]

lemma factionLines_shape (base : String) (cfg₁ cfg₂ : Config) (f : String)
    (h : configShapeEq cfg₁ cfg₂ = true) :
    factionLines base cfg₁ f = factionLines base cfg₂ f := by
  induction cfg₁ generalizing cfg₂ with
  | nil => cases cfg₂ with
    | nil => rfl
    | cons q c₂ => simp [configShapeEq] at h
  | cons p c₁ ih =>
    cases cfg₂ with
    | nil => simp [configShapeEq] at h
    | cons q c₂ =>
      simp only [configShapeEq, Bool.and_eq_true] at h
      unfold factionLines
      simp only [List.flatMap_cons]
      rw [unitLines_shape base f _ _ h.1.2]
      exact congrArg _ (ih c₂ h.2)

/-- C9: paths-mode output depends on each animation's frame sequence only
through its length — two configurations agreeing on unit order, names, key
presence, textures and frame counts produce identical output even when the
frame index values differ. -/
theorem paths_shape_invariance (base : String) (fds : List String)
    (cfg₁ cfg₂ : Config) (h : configShapeEq cfg₁ cfg₂ = true) :
    pathsOutput base fds cfg₁ = pathsOutput base fds cfg₂ :=
  congrArg ((sortedFactions fds).flatMap)
    (funext fun f => factionLines_shape base cfg₁ cfg₂ f h)

/-- Witness for C9: the Tank with frame value lists `[0,1]/[0]/[0]/[0,1,2]`
versus `[7,9]/[3]/[4]/[5,5,5]`. -/
theorem paths_shape_invariance_witness :
    configShapeEq [("Tank", tankUnit)] [("Tank", tankUnitShifted)] = true ∧
    pathsOutput "B" ["F"] [("Tank", tankUnit)] =
      pathsOutput "B" ["F"] [("Tank", tankUnitShifted)] :=
  ⟨by decide, paths_shape_invariance "B" ["F"] _ _ (by decide)⟩

lemma removeDashes_eq_filter (l : List Char) :
    removeDashes l = l.filter (fun c => c ≠ '-') := by
  induction l with
  | nil => rfl
  | cons c rest ih =>
    by_cases hc : c = '-'
    · simp [removeDashes, hc, ih]
    · simp [removeDashes, hc, ih]

lemma rustUnits_names (cfg₁ cfg₂ : Config) (n : Nat)
    (h : cfg₁.map Prod.snd = cfg₂.map Prod.snd) :
    rustUnits cfg₁ n = rustUnits cfg₂ n := by
  induction cfg₁ generalizing cfg₂ n with
  | nil =>
    cases cfg₂ with
    | nil => rfl
    | cons q c₂ => simp at h
  | cons p c₁ ih =>
    cases cfg₂ with
    | nil => simp at h
    | cons q c₂ =>
      obtain ⟨name1, u⟩ := p
      obtain ⟨name2, v⟩ := q
      simp only [List.map_cons, List.cons.injEq] at h
      obtain ⟨rfl, h2⟩ := h
      rw [rustUnits_cons, rustUnits_cons]
      simp only [show ∀ m, rustUnits c₁ m = rustUnits c₂ m from fun m => ih c₂ m h2]

/-- C10: the unit-name keys never influence the output — renaming units
(preserving order and animation data) leaves both modes' output unchanged,
and the code-mode identifier is the idle texture with all dashes removed. -/
theorem unit_names_irrelevant (cfg₁ cfg₂ : Config)
    (h : cfg₁.map Prod.snd = cfg₂.map Prod.snd) :
    rustOutput cfg₁ = rustOutput cfg₂ ∧
    (∀ base fds, pathsOutput base fds cfg₁ = pathsOutput base fds cfg₂) ∧
    (∀ s : String, (rustEnumName s).data = s.data.filter (fun c => c ≠ '-')) := by
  refine ⟨?_, ?_, fun s => removeDashes_eq_filter s.data⟩
  · unfold rustOutput
    rw [rustUnits_names cfg₁ cfg₂ 0 h]
  · intro base fds
    refine congrArg ((sortedFactions fds).flatMap) (funext fun f => ?_)
    unfold factionLines
    rw [show cfg₁.flatMap (fun p => unitLines base f p.2) =
        (cfg₁.map Prod.snd).flatMap (fun u => unitLines base f u) from
        (List.flatMap_map _ _ _).symm,
      show cfg₂.flatMap (fun p => unitLines base f p.2) =
        (cfg₂.map Prod.snd).flatMap (fun u => unitLines base f u) from
        (List.flatMap_map _ _ _).symm, h]

/-- Witness for C10: renaming the Tank entry to `Renamed`. -/
theorem unit_names_irrelevant_witness :
    ([("Tank", tankUnit)] : Config).map Prod.snd =
      ([("Renamed", tankUnit)] : Config).map Prod.snd ∧
    (rustOutput [("Tank", tankUnit)] = rustOutput [("Renamed", tankUnit)] ∧
     (∀ base fds, pathsOutput base fds [("Tank", tankUnit)] =
        pathsOutput base fds [("Renamed", tankUnit)]) ∧
     (∀ s : String, (rustEnumName s).data = s.data.filter (fun c => c ≠ '-'))) :=
  ⟨rfl, unit_names_irrelevant [("Tank", tankUnit)] [("Renamed", tankUnit)] rfl⟩

lemma stripChars_comment_start (rest : List Char) :
    stripChars false ('/' :: '/' :: rest) = stripChars true rest := by
  simp [stripChars]

lemma stripChars_true_newline (rest : List Char) :
    stripChars true ('\n' :: rest) = '\n' :: stripChars false rest := by
  simp [stripChars]

lemma stripChars_cons_ne (c : Char) (rest : List Char) (hc : ¬ c = '/') :
    stripChars false (c :: rest) = c :: stripChars false rest := by
  cases rest with
  | nil => rfl
  | cons d rs =>
    rw [show stripChars false (c :: d :: rs) =
      if c = '/' ∧ d = '/' then stripChars true rs
      else c :: stripChars false (d :: rs) from rfl,
      if_neg (fun hand => hc hand.1)]

lemma stripChars_true_append (com rest : List Char)
    (hc : com.contains '\n' = false) :
    stripChars true (com ++ rest) = stripChars true rest := by
  induction com with
  | nil => rfl
  | cons c com ih =>
    simp only [List.contains_cons, Bool.or_eq_false_iff, beq_eq_false_iff_ne] at hc
    rw [List.cons_append,
      show stripChars true (c :: (com ++ rest)) =
        if c = '\n' then c :: stripChars false (com ++ rest)
        else stripChars true (com ++ rest) from rfl,
      if_neg (fun he => hc.1 he.symm)]
    exact ih hc.2

lemma stripChars_true_drop (com : List Char) (hc : com.contains '\n' = false) :
    stripChars true com = [] := by
  induction com with
  | nil => rfl
  | cons c com ih =>
    simp only [List.contains_cons, Bool.or_eq_false_iff, beq_eq_false_iff_ne] at hc
    rw [show stripChars true (c :: com) =
      if c = '\n' then c :: stripChars false com
      else stripChars true com from rfl,
      if_neg (fun he => hc.1 he.symm)]
    exact ih hc.2

lemma hasDoubleSlash_cons₂ (a b : Char) (t : List Char) :
    hasDoubleSlash (a :: b :: t) =
      ((a = '/' && b = '/') || hasDoubleSlash (b :: t)) := rfl

lemma hds_snoc (l : List Char) (d : Char) (hd : ¬ d = '/') :
    hasDoubleSlash (l ++ [d]) = hasDoubleSlash l := by
  induction l with
  | nil => rfl
  | cons a l ih =>
    cases l with
    | nil => simp [hasDoubleSlash_cons₂, hasDoubleSlash, hd]
    | cons b l' =>
      simp only [List.cons_append] at ih ⊢
      rw [hasDoubleSlash_cons₂, hasDoubleSlash_cons₂, ih]

lemma stripChars_clean (l : List Char) (h : hasDoubleSlash l = false) :
    stripChars false l = l := by
  induction l with
  | nil => rfl
  | cons a l ih =>
    cases l with
    | nil => rfl
    | cons b l' =>
      rw [hasDoubleSlash_cons₂, Bool.or_eq_false_iff] at h
      rw [show stripChars false (a :: b :: l') =
        if a = '/' ∧ b = '/' then stripChars true l'
        else a :: stripChars false (b :: l') from rfl,
        if_neg (fun hand => by simp [hand.1, hand.2] at h), ih h.2]

lemma stripChars_skip (l : List Char) (d : Char) (rest : List Char) :
    hasDoubleSlash (l ++ [d]) = false →
    stripChars false (l ++ d :: rest) = l ++ stripChars false (d :: rest) := by
  induction l with
  | nil => intro _; rfl
  | cons a l ih =>
    intro hds
    cases l with
    | nil =>
      simp only [List.cons_append, List.nil_append] at hds ⊢
      rw [hasDoubleSlash_cons₂, Bool.or_eq_false_iff] at hds
      rw [show stripChars false (a :: d :: rest) =
        if a = '/' ∧ d = '/' then stripChars true rest
        else a :: stripChars false (d :: rest) from rfl,
        if_neg (fun hand => by simp [hand.1, hand.2] at hds)]
    | cons b l' =>
      simp only [List.cons_append] at hds ⊢
      rw [hasDoubleSlash_cons₂, Bool.or_eq_false_iff] at hds
      rw [show stripChars false (a :: b :: (l' ++ d :: rest)) =
        if a = '/' ∧ b = '/' then stripChars true (l' ++ d :: rest)
        else a :: stripChars false (b :: (l' ++ d :: rest)) from rfl,
        if_neg (fun hand => by simp [hand.1, hand.2] at hds)]
      exact congrArg (List.cons a) (by
        have := ih (by simpa [List.cons_append] using hds.2)
        simpa [List.cons_append] using this)

lemma stripChars_renderCommented (pairs : List (List Char × Option (List Char)))
    (hok : ∀ p ∈ pairs, lineOk p = true) :
    stripChars false (renderCommented pairs) = renderClean pairs := by
  induction pairs with
  | nil => rfl
  | cons p rest ih =>
    obtain ⟨l, c⟩ := p
    have hokp := hok _ (List.mem_cons_self _ _)
    cases rest with
    | nil =>
      cases c with
      | none =>
        simp only [lineOk, Bool.and_eq_true, Bool.not_eq_true'] at hokp
        show stripChars false l = l
        exact stripChars_clean l hokp.2
      | some com =>
        simp only [lineOk, Bool.and_eq_true, Bool.not_eq_true'] at hokp
        show stripChars false (l ++ '/' :: '/' :: com) = l
        rw [stripChars_skip l '/' ('/' :: com) hokp.1.2,
          stripChars_comment_start, stripChars_true_drop com hokp.2,
          List.append_nil]
    | cons q rest' =>
      have hok' : ∀ p ∈ q :: rest', lineOk p = true :=
        fun p hp => hok p (List.mem_cons_of_mem _ hp)
      cases c with
      | none =>
        simp only [lineOk, Bool.and_eq_true, Bool.not_eq_true'] at hokp
        show stripChars false (l ++ '\n' :: renderCommented (q :: rest')) =
          l ++ '\n' :: renderClean (q :: rest')
        rw [stripChars_skip l '\n' _
            (by rw [hds_snoc l '\n' (by decide)]; exact hokp.2),
          stripChars_cons_ne '\n' _ (by decide), ih hok']
      | some com =>
        simp only [lineOk, Bool.and_eq_true, Bool.not_eq_true'] at hokp
        show stripChars false
            ((l ++ '/' :: '/' :: com) ++ '\n' :: renderCommented (q :: rest')) =
          l ++ '\n' :: renderClean (q :: rest')
        rw [List.append_assoc]
        simp only [List.cons_append]
        rw [stripChars_skip l '/' _ hokp.1.2, stripChars_comment_start,
          stripChars_true_append com _ hokp.2, stripChars_true_newline, ih hok']

/-- C8: the generator strips `//` line comments before parsing, succeeds
exactly when the stripped text parses (else `ParseError`), and a document
whose comments sit strictly after line content that itself contains no `//`
(and does not end in `/` right before a marker) strips back to the clean
document and parses to the same data. -/
theorem comment_strip_parse {J : Type} (parse : String → Option J) (j : J)
    (pairs : List (List Char × Option (List Char)))
    (hok : ∀ p ∈ pairs, lineOk p = true)
    (hparse : parse (String.mk (renderClean pairs)) = some j) :
    stripComments (String.mk (renderCommented pairs)) =
      String.mk (renderClean pairs) ∧
    parseUnits parse (String.mk (renderCommented pairs)) = .ok j ∧
    (∀ content : String,
      parseUnits parse content = .error "ParseError" ↔
        parse (stripComments content) = none) := by
  have hstrip : stripComments (String.mk (renderCommented pairs)) =
      String.mk (renderClean pairs) :=
    congrArg String.mk (stripChars_renderCommented pairs hok)
  refine ⟨hstrip, ?_, ?_⟩
  · unfold parseUnits
    rw [hstrip, hparse]
  · intro content
    unfold parseUnits
    cases hp : parse (stripComments content) with
    | none => simp
    | some x => simp

/-- Witness for C8: the document `a//x\nb` strips to `a\nb` and parses
under a toy parser accepting exactly that text. -/
theorem comment_strip_parse_witness :
    (∀ p ∈ ([(['a'], some ['x']), (['b'], none)] :
        List (List Char × Option (List Char))), lineOk p = true) ∧
    (fun s => if s = "a\nb" then some 0 else none)
      (String.mk (renderClean [(['a'], some ['x']), (['b'], none)])) = some 0 ∧
    (stripComments (String.mk (renderCommented [(['a'], some ['x']), (['b'], none)])) =
       String.mk (renderClean [(['a'], some ['x']), (['b'], none)]) ∧
     parseUnits (fun s => if s = "a\nb" then some 0 else none)
       (String.mk (renderCommented [(['a'], some ['x']), (['b'], none)])) = .ok 0 ∧
     (∀ content : String,
       parseUnits (fun s => if s = "a\nb" then some 0 else none) content =
           .error "ParseError" ↔
         (fun s => if s = "a\nb" then some 0 else none) (stripComments content) =
           none)) :=
  ⟨by decide, by decide,
    comment_strip_parse (fun s => if s = "a\nb" then some 0 else none) 0
      [(['a'], some ['x']), (['b'], none)] (by decide) (by decide)⟩
